import Mathlib

/-!
Verification of the SOMAT peptide-linker-peptide SMILES assembly engine
(`utility/PepLinkPep2SMILES.py`).  Python strings are modelled as `List Char`,
Python exceptions as an explicit error type threaded through `Except`, and the
`PeptideLinkerBuilder` methods as Lean functions with the source's names.
-/

set_option maxRecDepth 10000

/-- Python strings are modelled as lists of characters. -/
abbrev Str := List Char

deriving instance DecidableEq for Except

/-- Python's substring operator `p in s`, by scanning every start position. -/
def pyIn (p : Str) : Str → Bool
  | [] => p == []
  | c :: rest => p.isPrefixOf (c :: rest) || pyIn p rest

/-- The single-quote character, used by Python's `repr` of strings. -/
def squote : Char := Char.ofNat 39

/-- Python exceptions that the assembly engine can raise: `ValueError`
(raised by `validate_sequence`) and `KeyError` (raised by a failed
dictionary lookup `self.amino_acid_sidechains[aa]`). -/
inductive PyExc where
  | valueError (msg : Str)
  | keyError (key : Char)
deriving DecidableEq

/-- `str(e)` for the exceptions above: a `ValueError`'s message is its string,
a `KeyError` renders as the `repr` of its key, e.g. `'X'`. -/
def pyStr : PyExc → Str
  | .valueError m => m
  | .keyError k => squote :: k :: [squote]

/-- A dynamically typed Python value as passed for the `NH2_endpoint` and
`remove_n` parameters: either a string or a boolean. -/
inductive PyVal where
  | str (s : Str)
  | bool (b : Bool)
deriving DecidableEq

/-- Python `v == t` where `t` is a string literal: two strings compare by
content, a boolean is never equal to a string. -/
def pyEqStr (v : PyVal) (t : Str) : Bool :=
  match v with
  | .str s => s == t
  | .bool _ => false

/-- The `amino_acid_sidechains` dictionary: side-chain SMILES per one-letter
residue code. -/
def amino_acid_sidechains_entries : List (Char × Str) :=
  [('A', "C".toList),
   ('R', "CCCNC(=N)N".toList),
   ('N', "CC(=O)N".toList),
   ('D', "CC(=O)O".toList),
   ('C', "CS".toList),
   ('E', "CCC(=O)O".toList),
   ('Q', "CCC(=O)N".toList),
   ('G', "".toList),
   ('H', "CC1=CNC=N1".toList),
   ('I', "C(C)CC".toList),
   ('L', "CC(C)C".toList),
   ('K', "CCCCN".toList),
   ('M', "CCSC".toList),
   ('F', "CC1=CC=CC=C1".toList),
   ('P', "".toList),
   ('S', "CO".toList),
   ('T', "C(C)O".toList),
   ('W', "CC1=CNC2=CC=CC=C21".toList),
   ('Y', "CC1=CC=C(C=C1)O".toList),
   ('V', "C(C)C".toList)]

/-- Dictionary lookup `self.amino_acid_sidechains[aa]`, as an association-list
lookup; `none` corresponds to a missing key. -/
def amino_acid_sidechains (aa : Char) : Option Str :=
  amino_acid_sidechains_entries.lookup aa

/-- Helper used by theorems: the character is not a key of the table. -/
def isUnknownAA (aa : Char) : Bool := (amino_acid_sidechains aa).isNone

/-- `', '.join`-style comma join used by Python's list `repr`. -/
def commaJoin : List Str → Str
  | [] => []
  | [x] => x
  | x :: xs => x ++ ',' :: ' ' :: commaJoin xs

/-- Python `repr` of a list of one-character strings, e.g. `['X', 'Z']`. -/
def pyCharListRepr (l : List Char) : Str :=
  '[' :: (commaJoin (l.map fun c => [squote, c, squote]) ++ [']'])

/-- The message of the `ValueError` raised by `validate_sequence`
(`f"유효하지 않은 아미노산: {invalid_residues}"`). -/
def invalidMsg (invalid : List Char) : Str :=
  "유효하지 않은 아미노산: ".toList ++ pyCharListRepr invalid

/-- `validate_sequence`: the empty string is accepted; otherwise every
character must be a key of the table, and on failure a `ValueError` lists
every offending character in input order. -/
def validate_sequence (sequence : Str) : Except PyExc Bool :=
  if sequence = [] then .ok true
  else
    let invalid_residues := sequence.filter isUnknownAA
    if invalid_residues ≠ [] then .error (.valueError (invalidMsg invalid_residues))
    else .ok true

/-- The N-side attachment marker literal. -/
def marker1 : Str := "[*1]".toList

/-- The C-side attachment marker literal. -/
def marker2 : Str := "[*2]".toList

/-- The record returned by `parse_linker_attachment_points`. -/
structure LinkerInfo where
  linker : Str
  n_attachment : Option Str
  c_attachment : Option Str
  has_explicit_points : Bool
deriving DecidableEq

/-- `parse_linker_attachment_points`: substring search for the two marker
tokens; explicit mode when either is found. -/
def parse_linker_attachment_points (linker_smiles : Str) : LinkerInfo :=
  let has_star1 := pyIn marker1 linker_smiles
  let has_star2 := pyIn marker2 linker_smiles
  if has_star1 || has_star2 then
    { linker := linker_smiles
      n_attachment := if has_star1 then some marker1 else none
      c_attachment := if has_star2 then some marker2 else none
      has_explicit_points := true }
  else
    { linker := linker_smiles
      n_attachment := none
      c_attachment := none
      has_explicit_points := false }

/-- The terminus role argument of `build_peptide_chain_for_connection`. -/
inductive ConnectionType where
  | n_terminal
  | c_terminal
deriving DecidableEq

/-- The fragment emitted for one residue of a multi-residue chain, following
the source's three-way position split (first / last / middle) and the
per-residue special cases for proline and glycine.  `len` is the sequence
length and `i` the zero-based position. -/
def multiFragment (len i : Nat) (aa : Char) (sidechain : Str) (ct : ConnectionType) : Str :=
  if i = 0 then
    match ct with
    | .n_terminal =>
        if aa = 'P' then "N1CCC[CH]1C(=O)".toList
        else if aa = 'G' then "NCC(=O)".toList
        else "N[CH](".toList ++ sidechain ++ ")C(=O)".toList
    | .c_terminal =>
        if aa = 'P' then "N1CCC[CH]1C(=O)".toList
        else if aa = 'G' then "NCC(=O)".toList
        else "N[CH](".toList ++ sidechain ++ ")C(=O)".toList
  else if i = len - 1 then
    match ct with
    | .n_terminal =>
        if aa = 'P' then "N1CCC[CH]1C(=O)".toList
        else if aa = 'G' then "NCC(=O)".toList
        else "N[CH](".toList ++ sidechain ++ ")C(=O)".toList
    | .c_terminal =>
        if aa = 'P' then "N1CCC[CH]1C(=O)O".toList
        else if aa = 'G' then "NCC(=O)O".toList
        else "N[CH](".toList ++ sidechain ++ ")C(=O)O".toList
  else
    if aa = 'P' then "N1CCC[CH]1C(=O)".toList
    else if aa = 'G' then "NCC(=O)".toList
    else "N[CH](".toList ++ sidechain ++ ")C(=O)".toList

/-- The loop body of the multi-residue branch of
`build_peptide_chain_for_connection`: looks up each residue's side chain in
input order (raising `KeyError` at the first unknown residue) and collects
the per-position fragments. -/
def buildParts (len : Nat) (ct : ConnectionType) : Nat → Str → Except PyExc (List Str)
  | _, [] => .ok []
  | i, aa :: rest =>
    match amino_acid_sidechains aa with
    | none => .error (.keyError aa)
    | some sidechain =>
      match buildParts len ct (i + 1) rest with
      | .error e => .error e
      | .ok parts => .ok (multiFragment len i aa sidechain ct :: parts)

/-- `build_peptide_chain_for_connection`: empty sequence renders to the empty
string; a single residue uses the dedicated single-residue templates; longer
sequences use the position-indexed loop. -/
def build_peptide_chain_for_connection (sequence : Str) (ct : ConnectionType) : Except PyExc Str :=
  match sequence with
  | [] => .ok []
  | [aa] =>
    match amino_acid_sidechains aa with
    | none => .error (.keyError aa)
    | some sidechain =>
      .ok (match ct with
        | .n_terminal =>
            if aa = 'P' then "N1CCC[CH]1C(=O)".toList
            else if aa = 'G' then "NCC(=O)".toList
            else "N[CH](".toList ++ sidechain ++ ")C(=O)".toList
        | .c_terminal =>
            if aa = 'P' then "N1CCC[CH]1C(=O)O".toList
            else if aa = 'G' then "NCC(=O)O".toList
            else "N[CH](".toList ++ sidechain ++ ")C(=O)O".toList)
  | _ =>
    match buildParts sequence.length ct 0 sequence with
    | .error e => .error e
    | .ok parts => .ok parts.flatten

/-- The three-character-suffix pattern `C(=O)O` searched by
`convert_last_carboxyl_to_amide`. -/
def acidPattern : Str := "C(=O)O".toList

/-- Scan positions `n, n-1, ..., 0` for the pattern; the model of Python's
`str.rfind` (which returns the highest matching start index). -/
def rfindFrom (p s : Str) : Nat → Option Nat
  | 0 => if p.isPrefixOf s then some 0 else none
  | i + 1 => if p.isPrefixOf (s.drop (i + 1)) then some (i + 1) else rfindFrom p s i

/-- Python `s.rfind(p)`, as an `Option Nat` (`none` for Python's `-1`). -/
def rfind (p s : Str) : Option Nat := rfindFrom p s s.length

/-- `convert_last_carboxyl_to_amide`: replace the trailing `O` of the last
occurrence of `C(=O)O` by `N`; identity when the pattern does not occur. -/
def convert_last_carboxyl_to_amide (smiles : Str) : Str :=
  match rfind acidPattern smiles with
  | some last_index =>
      let o_pos := last_index + acidPattern.length - 1
      smiles.take o_pos ++ 'N' :: smiles.drop (o_pos + 1)
  | none => smiles

/-- Python `s.replace(p, r)` with explicit fuel: left-to-right, non-overlapping
replacement of every occurrence.  The fuel is consumed one unit per character
position, so `s.length` units always suffice. -/
def pyReplaceFuel (p r : Str) : Nat → Str → Str
  | 0, s => s
  | _ + 1, [] => []
  | fuel + 1, c :: rest =>
    if p ≠ [] ∧ p.isPrefixOf (c :: rest) then
      r ++ pyReplaceFuel p r fuel ((c :: rest).drop p.length)
    else
      c :: pyReplaceFuel p r fuel rest

/-- Python `s.replace(p, r)` (for the non-empty patterns used here). -/
def pyReplace (p r s : Str) : Str := pyReplaceFuel p r s.length s

/-- The N-side marker handling block of `connect_with_explicit_points`:
if a marker is recorded, replace it by the rendered N-chain (which amounts
to deleting it when the chain is empty). -/
def nSideStep (n_point : Option Str) (n_peptide : Str) (connected : Str) : Str :=
  match n_point with
  | some np =>
      if n_peptide ≠ [] then pyReplace np n_peptide connected
      else pyReplace np [] connected
  | none => connected

/-- The C-side marker handling block of `connect_with_explicit_points`:
with a non-empty chain, strip its leading `N` exactly when `remove_n` equals
the string `"True"`, the original linker contains `N` immediately before the
marker, and the chain starts with `N`; otherwise substitute it unmodified.
An empty chain deletes the marker. -/
def cSideStep (linker_smiles : Str) (c_point : Option Str) (c_peptide : Str)
    (remove_n : PyVal) (connected : Str) : Str :=
  match c_point with
  | some cp =>
      if c_peptide ≠ [] then
        if pyEqStr remove_n "True".toList = true ∧ pyIn ('N' :: cp) linker_smiles = true then
          if c_peptide.head? = some 'N' then pyReplace cp c_peptide.tail connected
          else pyReplace cp c_peptide connected
        else pyReplace cp c_peptide connected
      else pyReplace cp [] connected
  | none => connected

/-- `connect_with_explicit_points`: render both chains (empty sequence gives
the empty chain), then apply the N-side and C-side marker substitutions to
the linker text. -/
def connect_with_explicit_points (n_peptide_seq : Str) (linker_info : LinkerInfo)
    (c_peptide_seq : Str) (remove_n : PyVal) : Except PyExc Str :=
  (if n_peptide_seq ≠ [] then build_peptide_chain_for_connection n_peptide_seq .n_terminal
   else pure []) >>= fun n_peptide =>
  (if c_peptide_seq ≠ [] then build_peptide_chain_for_connection c_peptide_seq .c_terminal
   else pure []) >>= fun c_peptide =>
  pure (cSideStep linker_info.linker linker_info.c_attachment c_peptide remove_n
    (nSideStep linker_info.n_attachment n_peptide linker_info.linker))

/-- `build_direct_connection`: N-chain, linker verbatim, C-chain. -/
def build_direct_connection (n_terminal_seq linker_smiles c_terminal_seq : Str) :
    Except PyExc Str :=
  build_peptide_chain_for_connection n_terminal_seq .n_terminal >>= fun n_peptide =>
  build_peptide_chain_for_connection c_terminal_seq .c_terminal >>= fun c_peptide =>
  pure (n_peptide ++ linker_smiles ++ c_peptide)

/-- `build_with_preserved_linker`: validate each non-empty terminal sequence,
parse the linker's attachment points, then dispatch on explicit mode. -/
def build_with_preserved_linker (n_terminal_seq linker_with_points c_terminal_seq : Str)
    (remove_n : PyVal) : Except PyExc Str := do
  if n_terminal_seq ≠ [] then
    let _ ← validate_sequence n_terminal_seq
  if c_terminal_seq ≠ [] then
    let _ ← validate_sequence c_terminal_seq
  let linker_info := parse_linker_attachment_points linker_with_points
  if linker_info.has_explicit_points then
    connect_with_explicit_points n_terminal_seq linker_info c_terminal_seq remove_n
  else
    build_direct_connection n_terminal_seq linker_with_points c_terminal_seq

/-- The try-block of `build_structure_info`: choose a strategy from `method`
and the `[*` prefilter, producing the assembled string and the strategy
label. -/
def buildAttempt (n_terminal_seq linker_smiles c_terminal_seq : Str) (remove_n : PyVal)
    (method : Str) : Except PyExc (Str × Str) :=
  if method = "auto".toList then
    if pyIn "[*".toList linker_smiles then
      (build_with_preserved_linker n_terminal_seq linker_smiles c_terminal_seq remove_n).map
        (fun s => (s, "explicit_attachment_preserved".toList))
    else
      (build_direct_connection n_terminal_seq linker_smiles c_terminal_seq).map
        (fun s => (s, "direct_connection_preserved".toList))
  else if method = "preserved".toList then
    (build_with_preserved_linker n_terminal_seq linker_smiles c_terminal_seq remove_n).map
      (fun s => (s, "preserved_linker_structure".toList))
  else
    (build_direct_connection n_terminal_seq linker_smiles c_terminal_seq).map
      (fun s => (s, "direct_connection_preserved".toList))

/-- The success record of `build_structure_info`. -/
structure StructureInfo where
  n_terminal_sequence : Str
  linker_smiles : Str
  c_terminal_sequence : Str
  total_structure_smiles : Str
  method_used : Str
  total_aa_length : Nat
deriving DecidableEq

/-- The result of `build_structure_info`: a success record, or the error
record `{'error': str(e)}` produced by the blanket `except` clause. -/
inductive BuildResult where
  | info (i : StructureInfo)
  | error (msg : Str)
deriving DecidableEq

/-- `build_structure_info`: run the chosen strategy, optionally apply the
amide conversion when `NH2_endpoint` equals the string `"True"`, and package
the outcome; any raised exception becomes an error record. -/
def build_structure_info (n_terminal_seq linker_smiles c_terminal_seq : Str)
    (NH2_endpoint remove_n : PyVal) (method : Str) : BuildResult :=
  match buildAttempt n_terminal_seq linker_smiles c_terminal_seq remove_n method with
  | .error e => .error (pyStr e)
  | .ok (smiles, used_method) =>
      let final_smiles :=
        if pyEqStr NH2_endpoint "True".toList then convert_last_carboxyl_to_amide smiles
        else smiles
      .info
        { n_terminal_sequence := n_terminal_seq
          linker_smiles := linker_smiles
          c_terminal_sequence := c_terminal_seq
          total_structure_smiles := final_smiles
          method_used := used_method
          total_aa_length := n_terminal_seq.length + c_terminal_seq.length }

/-- Specification-side per-residue fragment, following the spec's template
rules: proline ring literal, glycine fixed template, or the general backbone
template around the table's side chain. -/
def fragSpec (aa : Char) : Str :=
  if aa = 'P' then "N1CCC[CH]1C(=O)".toList
  else if aa = 'G' then "NCC(=O)".toList
  else "N[CH](".toList ++ (amino_acid_sidechains aa).getD [] ++ ")C(=O)".toList

/-- Specification-side closed form of the renderer: ordered concatenation of
per-residue fragments, with a terminal `O` appended exactly for a non-empty
C-side render. -/
def renderSpec (seq : Str) (ct : ConnectionType) : Str :=
  (seq.map fragSpec).flatten ++
    (if ct = ConnectionType.c_terminal ∧ seq ≠ [] then ['O'] else [])

/-- Specification-side description of the orchestrator's per-sequence
validation step: an empty sequence is skipped, a failed validation
short-circuits the continuation. -/
def validateStep (seq : Str) (k : Except PyExc Str) : Except PyExc Str :=
  if seq = [] then k
  else
    match validate_sequence seq with
    | .ok _ => k
    | .error e => .error e

/-! ### Basic lemmas about the string primitives -/

theorem isPrefixOfSpec (p s : Str) : p.isPrefixOf s = true ↔ p <+: s :=
  List.isPrefixOf_iff_prefix

theorem pyIn_iff (p s : Str) : pyIn p s = true ↔ p <:+: s := by
  induction s with
  | nil =>
      simp [pyIn, List.infix_nil]
  | cons c rest ih =>
      simp [pyIn, Bool.or_eq_true, isPrefixOfSpec, ih, List.infix_cons_iff]

theorem pyReplaceFuel_nil (p r : Str) (f : Nat) : pyReplaceFuel p r f [] = [] := by
  cases f <;> rfl

theorem pyReplaceFuel_fuel_eq (p r : Str) :
    ∀ (f g : Nat) (s : Str), s.length ≤ f → s.length ≤ g →
      pyReplaceFuel p r f s = pyReplaceFuel p r g s := by
  intro f
  induction f with
  | zero =>
      intro g s hf _
      have hs : s = [] := List.eq_nil_of_length_eq_zero (Nat.le_zero.mp hf)
      subst hs
      rw [pyReplaceFuel_nil, pyReplaceFuel_nil]
  | succ f ih =>
      intro g s hf hg
      cases s with
      | nil => rw [pyReplaceFuel_nil, pyReplaceFuel_nil]
      | cons c rest =>
          cases g with
          | zero => simp at hg
          | succ g =>
              simp only [pyReplaceFuel]
              split
              · next h =>
                  have hp : 1 ≤ p.length := by
                    cases hpl : p with
                    | nil => exact absurd hpl h.1
                    | cons a l => simp
                  have hd : ((c :: rest).drop p.length).length ≤ f := by
                    simp only [List.length_drop, List.length_cons]
                    simp only [List.length_cons] at hf
                    omega
                  have hd' : ((c :: rest).drop p.length).length ≤ g := by
                    simp only [List.length_drop, List.length_cons]
                    simp only [List.length_cons] at hg
                    omega
                  rw [ih _ _ hd hd']
              · have h1 : rest.length ≤ f := by
                  simp only [List.length_cons] at hf; omega
                have h2 : rest.length ≤ g := by
                  simp only [List.length_cons] at hg; omega
                rw [ih _ _ h1 h2]

theorem pyReplace_nil (p r : Str) : pyReplace p r [] = [] := rfl

theorem pyReplace_cons (p r : Str) (c : Char) (rest : Str) :
    pyReplace p r (c :: rest) =
      if p ≠ [] ∧ p.isPrefixOf (c :: rest) then
        r ++ pyReplace p r ((c :: rest).drop p.length)
      else
        c :: pyReplace p r rest := by
  show pyReplaceFuel p r (rest.length + 1) (c :: rest) = _
  simp only [pyReplaceFuel]
  split
  · next h =>
      have hp : 1 ≤ p.length := by
        cases hpl : p with
        | nil => exact absurd hpl h.1
        | cons a l => simp
      have hd : ((c :: rest).drop p.length).length ≤ rest.length := by
        simp only [List.length_drop, List.length_cons]; omega
      unfold pyReplace
      rw [pyReplaceFuel_fuel_eq p r rest.length ((c :: rest).drop p.length).length _ hd le_rfl]
  · rfl

/-! ### Facts about the residue fragments and rendered chains -/

theorem lookup_all_snd {P : Str → Prop} (aa : Char) (s : Str) :
    ∀ (l : List (Char × Str)), (∀ p ∈ l, P p.2) → l.lookup aa = some s → P s := by
  intro l
  induction l with
  | nil => intro _ h; simp [List.lookup] at h
  | cons p rest ih =>
      intro hall h
      obtain ⟨k, v⟩ := p
      by_cases hk : aa = k
      · subst hk
        simp only [List.lookup_cons, beq_self_eq_true, Option.some.injEq] at h
        subst h
        exact hall (aa, v) (by simp)
      · have hne : (aa == k) = false := by simp [hk]
        simp only [List.lookup_cons, hne] at h
        exact ih (fun q hq => hall q (List.mem_cons_of_mem _ hq)) h

theorem sidechain_no_star (aa : Char) : '*' ∉ (amino_acid_sidechains aa).getD [] := by
  cases h : amino_acid_sidechains aa with
  | none => simp
  | some s =>
      simp only [Option.getD_some]
      exact @lookup_all_snd (fun t => '*' ∉ t) aa s amino_acid_sidechains_entries (by decide) h

theorem fragSpec_eq_cons (aa : Char) : ∃ t, fragSpec aa = 'N' :: t := by
  unfold fragSpec
  repeat' split
  all_goals exact ⟨_, rfl⟩

theorem fragSpec_ne_nil (aa : Char) : fragSpec aa ≠ [] := by
  obtain ⟨t, ht⟩ := fragSpec_eq_cons aa
  simp [ht]

theorem fragSpec_head (aa : Char) : (fragSpec aa).head? = some 'N' := by
  obtain ⟨t, ht⟩ := fragSpec_eq_cons aa
  simp [ht]

theorem fragSpec_last (aa : Char) : (fragSpec aa).getLast? = some ')' := by
  unfold fragSpec
  repeat' split
  · decide
  · decide
  · rw [List.getLast?_append, List.getLast?_append]
    have hB : (")C(=O)".toList).getLast? = some ')' := by decide
    rw [hB]
    rfl

theorem fragSpec_no_star (aa : Char) : '*' ∉ fragSpec aa := by
  unfold fragSpec
  repeat' split
  · decide
  · decide
  · intro hmem
    rcases List.mem_append.mp hmem with h | h
    · rcases List.mem_append.mp h with h' | h'
      · exact absurd h' (by decide)
      · exact sidechain_no_star aa h'
    · exact absurd h (by decide)

theorem renderSpec_nil (ct : ConnectionType) : renderSpec [] ct = [] := by
  simp [renderSpec]

theorem renderSpec_eq_cons (seq : Str) (ct : ConnectionType) (h : seq ≠ []) :
    ∃ t, renderSpec seq ct = 'N' :: t := by
  cases seq with
  | nil => exact absurd rfl h
  | cons a rest =>
      obtain ⟨t, ht⟩ := fragSpec_eq_cons a
      refine ⟨t ++ (rest.map fragSpec).flatten ++
        (if ct = ConnectionType.c_terminal ∧ (a :: rest) ≠ [] then ['O'] else []), ?_⟩
      simp [renderSpec, ht]

theorem renderSpec_ne_nil (seq : Str) (ct : ConnectionType) (h : seq ≠ []) :
    renderSpec seq ct ≠ [] := by
  obtain ⟨t, ht⟩ := renderSpec_eq_cons seq ct h
  simp [ht]

theorem renderSpec_head (seq : Str) (ct : ConnectionType) (h : seq ≠ []) :
    (renderSpec seq ct).head? = some 'N' := by
  obtain ⟨t, ht⟩ := renderSpec_eq_cons seq ct h
  simp [ht]

theorem flatten_map_fragSpec_last (seq : Str) (h : seq ≠ []) :
    ((seq.map fragSpec).flatten).getLast? = some ')' := by
  induction seq with
  | nil => exact absurd rfl h
  | cons a rest ih =>
      cases rest with
      | nil => simpa using fragSpec_last a
      | cons b rest' =>
          have hr := ih (by simp)
          simp only [List.map_cons, List.flatten_cons] at hr ⊢
          rw [List.getLast?_append, hr]
          rfl

theorem renderSpec_last (seq : Str) (ct : ConnectionType) (h : seq ≠ []) :
    (renderSpec seq ct).getLast? = some ')' ∨ (renderSpec seq ct).getLast? = some 'O' := by
  unfold renderSpec
  split
  · right
    rw [List.getLast?_append]
    rfl
  · left
    rw [List.append_nil]
    exact flatten_map_fragSpec_last seq h

theorem renderSpec_no_star (seq : Str) (ct : ConnectionType) : '*' ∉ renderSpec seq ct := by
  intro hmem
  unfold renderSpec at hmem
  rcases List.mem_append.mp hmem with h | h
  · obtain ⟨l, hl, hmem'⟩ := List.mem_flatten.mp h
    obtain ⟨aa, _, rfl⟩ := List.mem_map.mp hl
    exact fragSpec_no_star aa hmem'
  · split at h
    · exact absurd h (by decide)
    · exact absurd h (by simp)

/-! ### The renderer agrees with its closed-form specification -/

theorem oSuffix_pro : "N1CCC[CH]1C(=O)O".toList = "N1CCC[CH]1C(=O)".toList ++ ['O'] := by decide

theorem oSuffix_gly : "NCC(=O)O".toList = "NCC(=O)".toList ++ ['O'] := by decide

theorem oSuffix_gen : ")C(=O)O".toList = ")C(=O)".toList ++ ['O'] := by decide

theorem bp_single (aa : Char) (s : Str) (h : amino_acid_sidechains aa = some s)
    (ct : ConnectionType) :
    build_peptide_chain_for_connection [aa] ct = .ok (renderSpec [aa] ct) := by
  simp only [build_peptide_chain_for_connection]
  rw [h]
  unfold renderSpec
  simp only [List.map_cons, List.map_nil, List.flatten_cons, List.flatten_nil]
  unfold fragSpec
  cases ct <;> by_cases hP : aa = 'P' <;> by_cases hG : aa = 'G' <;>
    simp [hP, hG, h, oSuffix_pro, oSuffix_gly, oSuffix_gen, List.append_assoc]

theorem multiFragment_first (len : Nat) (aa : Char) (s : Str)
    (h : amino_acid_sidechains aa = some s) (ct : ConnectionType) :
    multiFragment len 0 aa s ct = fragSpec aa := by
  unfold multiFragment fragSpec
  rw [h]
  cases ct <;> simp

theorem multiFragment_last (len i : Nat) (aa : Char) (s : Str)
    (h : amino_acid_sidechains aa = some s) (hi0 : i ≠ 0) (hil : i = len - 1)
    (ct : ConnectionType) :
    multiFragment len i aa s ct
      = fragSpec aa ++ (if ct = ConnectionType.c_terminal then ['O'] else []) := by
  unfold multiFragment fragSpec
  rw [if_neg hi0, if_pos hil, h]
  cases ct <;> by_cases hP : aa = 'P' <;> by_cases hG : aa = 'G' <;>
    simp [hP, hG, oSuffix_pro, oSuffix_gly, oSuffix_gen, List.append_assoc]

theorem multiFragment_mid (len i : Nat) (aa : Char) (s : Str)
    (h : amino_acid_sidechains aa = some s) (hi0 : i ≠ 0) (hil : i ≠ len - 1)
    (ct : ConnectionType) :
    multiFragment len i aa s ct = fragSpec aa := by
  unfold multiFragment fragSpec
  rw [if_neg hi0, if_neg hil, h]
  simp

theorem buildParts_spec (len : Nat) (ct : ConnectionType) :
    ∀ (rest : Str) (i : Nat), 1 ≤ i → i + rest.length = len →
      (∀ aa ∈ rest, (amino_acid_sidechains aa).isSome) →
      ∃ parts, buildParts len ct i rest = .ok parts ∧
        parts.flatten = (rest.map fragSpec).flatten ++
          (if ct = ConnectionType.c_terminal ∧ rest ≠ [] then ['O'] else []) := by
  intro rest
  induction rest with
  | nil =>
      intro i _ _ _
      exact ⟨[], rfl, by simp⟩
  | cons aa rest' ih =>
      intro i hi hlen hv
      obtain ⟨s, hs⟩ := Option.isSome_iff_exists.mp (hv aa (by simp))
      by_cases hr : rest' = []
      · subst hr
        have hlast : i = len - 1 := by
          simp only [List.length_cons, List.length_nil] at hlen; omega
        refine ⟨[multiFragment len i aa s ct], ?_, ?_⟩
        · unfold buildParts
          rw [hs]
          rfl
        · rw [multiFragment_last len i aa s hs (by omega) hlast ct]
          cases ct <;> simp
      · obtain ⟨parts', hp', hj'⟩ := ih (i + 1) (by omega)
          (by simp only [List.length_cons] at hlen ⊢; omega)
          (fun x hx => hv x (by simp [hx]))
        have hmid : i ≠ len - 1 := by
          have : 1 ≤ rest'.length := by
            cases rest' with
            | nil => exact absurd rfl hr
            | cons b l => simp
          simp only [List.length_cons] at hlen; omega
        refine ⟨multiFragment len i aa s ct :: parts', ?_, ?_⟩
        · unfold buildParts
          rw [hs, hp']
        · rw [List.flatten_cons, hj', multiFragment_mid len i aa s hs (by omega) hmid ct]
          cases ct <;> simp [hr, List.append_assoc]

theorem bp_spec (seq : Str) (ct : ConnectionType)
    (hv : ∀ aa ∈ seq, (amino_acid_sidechains aa).isSome) :
    build_peptide_chain_for_connection seq ct = .ok (renderSpec seq ct) := by
  match seq with
  | [] =>
      simp [build_peptide_chain_for_connection, renderSpec]
  | [aa] =>
      obtain ⟨s, hs⟩ := Option.isSome_iff_exists.mp (hv aa (by simp))
      exact bp_single aa s hs ct
  | aa :: b :: rest =>
      obtain ⟨s, hs⟩ := Option.isSome_iff_exists.mp (hv aa (by simp))
      obtain ⟨parts', hp', hj'⟩ := buildParts_spec (aa :: b :: rest).length ct (b :: rest) 1
        le_rfl (by simp only [List.length_cons]; omega) (fun x hx => hv x (by simp [hx]))
      have h0 : buildParts (aa :: b :: rest).length ct 0 (aa :: b :: rest)
          = .ok (multiFragment (aa :: b :: rest).length 0 aa s ct :: parts') := by
        unfold buildParts
        rw [hs, hp']
      have hb : build_peptide_chain_for_connection (aa :: b :: rest) ct
          = .ok ((multiFragment (aa :: b :: rest).length 0 aa s ct :: parts').flatten) := by
        simp only [build_peptide_chain_for_connection]
        rw [h0]
      rw [hb, multiFragment_first _ aa s hs ct]
      unfold renderSpec
      rw [List.flatten_cons, hj', List.map_cons, List.flatten_cons]
      cases ct <;> simp [List.append_assoc]

theorem buildParts_err (len : Nat) (ct : ConnectionType) :
    ∀ (rest : Str) (i : Nat), rest.filter isUnknownAA ≠ [] →
      buildParts len ct i rest = .error (.keyError ((rest.filter isUnknownAA).headI)) := by
  intro rest
  induction rest with
  | nil => intro i h; simp at h
  | cons aa rest' ih =>
      intro i h
      by_cases hu : isUnknownAA aa
      · have hn : amino_acid_sidechains aa = none := by
          unfold isUnknownAA at hu
          exact Option.isNone_iff_eq_none.mp hu
        unfold buildParts
        rw [hn]
        simp [List.filter_cons, hu]
      · obtain ⟨s, hs⟩ : ∃ s, amino_acid_sidechains aa = some s := by
          rcases ho : amino_acid_sidechains aa with _ | s
          · exact absurd (by unfold isUnknownAA; rw [ho]; rfl) hu
          · exact ⟨s, rfl⟩
        have hrest : rest'.filter isUnknownAA ≠ [] := by
          simpa [List.filter_cons, hu] using h
        unfold buildParts
        rw [hs, ih (i + 1) hrest]
        simp [List.filter_cons, hu]

theorem bp_err (seq : Str) (ct : ConnectionType) (h : seq.filter isUnknownAA ≠ []) :
    build_peptide_chain_for_connection seq ct
      = .error (.keyError ((seq.filter isUnknownAA).headI)) := by
  match seq with
  | [] => simp at h
  | [aa] =>
      have hu : isUnknownAA aa := by
        by_contra hc
        simp [List.filter_cons, hc] at h
      have hn : amino_acid_sidechains aa = none := by
        unfold isUnknownAA at hu
        exact Option.isNone_iff_eq_none.mp hu
      simp only [build_peptide_chain_for_connection]
      rw [hn]
      simp [List.filter_cons, hu]
  | aa :: b :: rest =>
      simp only [build_peptide_chain_for_connection]
      rw [buildParts_err _ ct (aa :: b :: rest) 0 h]

/-! ### The validator -/

theorem validate_err (seq : Str) (h : seq.filter isUnknownAA ≠ []) :
    validate_sequence seq
      = .error (.valueError (invalidMsg (seq.filter isUnknownAA))) := by
  have hseq : seq ≠ [] := by
    rintro rfl
    simp at h
  unfold validate_sequence
  rw [if_neg hseq]
  simp only [ne_eq]
  rw [if_pos h]

theorem validate_ok_iff (seq : Str) :
    validate_sequence seq = .ok true ↔ ∀ aa ∈ seq, (amino_acid_sidechains aa).isSome := by
  constructor
  · intro h aa ha
    by_contra hns
    have hu : isUnknownAA aa := by
      unfold isUnknownAA
      rcases ho : amino_acid_sidechains aa with _ | s
      · rfl
      · exact absurd (by rw [ho]; rfl) hns
    have hf : seq.filter isUnknownAA ≠ [] := by
      intro hnil
      exact absurd hu (by simpa using List.filter_eq_nil_iff.mp hnil aa ha)
    rw [validate_err seq hf] at h
    cases h
  · intro hall
    have hf : seq.filter isUnknownAA = [] := by
      refine List.filter_eq_nil_iff.mpr ?_
      intro aa ha
      have hsome := hall aa ha
      intro hc
      unfold isUnknownAA at hc
      simp [Option.isNone_iff_eq_none] at hc
      simp [hc] at hsome
    unfold validate_sequence
    by_cases hseq : seq = []
    · subst hseq
      rfl
    · rw [if_neg hseq]
      simp only [hf, ne_eq, not_true_eq_false, if_false]

/-! ### The attachment-point parser and strategy routing -/

theorem parse_fields (L : Str) :
    parse_linker_attachment_points L =
      { linker := L
        n_attachment := if pyIn marker1 L then some marker1 else none
        c_attachment := if pyIn marker2 L then some marker2 else none
        has_explicit_points := pyIn marker1 L || pyIn marker2 L } := by
  unfold parse_linker_attachment_points
  by_cases h : (pyIn marker1 L || pyIn marker2 L) = true
  · simp [h]
  · have h2 : (pyIn marker1 L || pyIn marker2 L) = false := by
      simpa using h
    obtain ⟨h1', h2'⟩ := Bool.or_eq_false_iff.mp h2
    simp [h1', h2']

theorem pyIn_brak_of_marker1 (L : Str) (h : pyIn marker1 L = true) :
    pyIn "[*".toList L = true := by
  rw [pyIn_iff] at h ⊢
  have hp : ("[*".toList) <:+: marker1 := by decide
  exact hp.trans h

theorem pyIn_brak_of_marker2 (L : Str) (h : pyIn marker2 L = true) :
    pyIn "[*".toList L = true := by
  rw [pyIn_iff] at h ⊢
  have hp : ("[*".toList) <:+: marker2 := by decide
  exact hp.trans h

theorem except_bind_ok {α β : Type} (a : α) (f : α → Except PyExc β) :
    (Except.ok a >>= f) = f a := rfl

theorem except_bind_error {α β : Type} (e : PyExc) (f : α → Except PyExc β) :
    ((Except.error e : Except PyExc α) >>= f) = Except.error e := rfl

theorem except_pure_bind {α β : Type} (a : α) (f : α → Except PyExc β) :
    ((pure a : Except PyExc α) >>= f) = f a := rfl

theorem except_map_ok {α β : Type} (a : α) (f : α → β) :
    (Except.ok a : Except PyExc α).map f = Except.ok (f a) := rfl

theorem except_map_error {α β : Type} (e : PyExc) (f : α → β) :
    (Except.error e : Except PyExc α).map f = Except.error e := rfl

theorem bwpl_eq (n L c : Str) (rn : PyVal) :
    build_with_preserved_linker n L c rn =
      validateStep n (validateStep c
        (if (parse_linker_attachment_points L).has_explicit_points then
          connect_with_explicit_points n (parse_linker_attachment_points L) c rn
        else
          build_direct_connection n L c)) := by
  by_cases hn : n = [] <;> by_cases hc : c = [] <;>
    rcases hvn : validate_sequence n with en | bn <;>
    rcases hvc : validate_sequence c with ec | bc <;>
    simp [build_with_preserved_linker, validateStep, hn, hc, hvn, hvc,
      except_bind_ok, except_bind_error, except_pure_bind]

theorem buildAttempt_auto (n L c : Str) (rn : PyVal) :
    buildAttempt n L c rn "auto".toList =
      if pyIn "[*".toList L then
        (build_with_preserved_linker n L c rn).map
          (fun s => (s, "explicit_attachment_preserved".toList))
      else
        (build_direct_connection n L c).map
          (fun s => (s, "direct_connection_preserved".toList)) := by
  unfold buildAttempt
  rw [if_pos rfl]

theorem buildAttempt_preserved (n L c : Str) (rn : PyVal) :
    buildAttempt n L c rn "preserved".toList =
      (build_with_preserved_linker n L c rn).map
        (fun s => (s, "preserved_linker_structure".toList)) := by
  unfold buildAttempt
  rw [if_neg (by decide), if_pos rfl]

/-! ### No-residual-marker machinery for `pyReplace` -/

theorem occurrence_in_append (q A B : Str) (h : q <:+: A ++ B) :
    q <:+: A ∨ q <:+: B ∨ ∃ x, A.getLast? = some x ∧ x ∈ q := by
  obtain ⟨s, t, hst⟩ := h
  by_cases h1 : s.length + q.length ≤ A.length
  · left
    have hA : (s ++ q ++ t).take A.length = A := by rw [hst]; exact List.take_left A B
    rw [List.take_append_eq_append_take] at hA
    rw [List.take_of_length_le (by simp only [List.length_append]; omega)] at hA
    exact ⟨s, _, hA⟩
  · by_cases h2 : A.length ≤ s.length
    · right; left
      have hB : (s ++ q ++ t).drop A.length = B := by rw [hst]; exact List.drop_left A B
      rw [List.drop_append_eq_append_drop, List.drop_append_eq_append_drop] at hB
      have e1 : A.length - s.length = 0 := by omega
      have e2 : A.length - (s ++ q).length = 0 := by simp only [List.length_append]; omega
      rw [e1, e2] at hB
      simp only [List.drop_zero] at hB
      exact ⟨s.drop A.length, t, hB⟩
    · right; right
      push_neg at h1 h2
      have hA : (s ++ q ++ t).take A.length = A := by rw [hst]; exact List.take_left A B
      rw [List.take_append_eq_append_take, List.take_append_eq_append_take] at hA
      have e3 : A.length - (s ++ q).length = 0 := by simp only [List.length_append]; omega
      rw [e3, List.take_zero, List.append_nil, List.take_of_length_le (le_of_lt h2)] at hA
      have htk : q.take (A.length - s.length) ≠ [] := by
        intro hcnil
        have := congrArg List.length hcnil
        simp only [List.length_take, List.length_nil] at this
        omega
      refine ⟨(q.take (A.length - s.length)).getLast htk, ?_, ?_⟩
      · have hgl : (s ++ q.take (A.length - s.length)).getLast?
            = some ((q.take (A.length - s.length)).getLast htk) := by
          rw [List.getLast?_append, List.getLast?_eq_getLast _ htk]
          rfl
        rw [← hgl, hA]
      · exact List.take_subset _ q (List.getLast_mem htk)

theorem pyReplace_track (p R q : Str) (hp : p ≠ []) (hR : R ≠ [])
    (hhead : ∀ x, R.head? = some x → x ∉ q) :
    ∀ (N : Nat) (s : Str), s.length ≤ N → ∀ k, 1 ≤ k →
      q.drop k <+: pyReplace p R s → q.drop k <+: s := by
  intro N
  induction N with
  | zero =>
      intro s hs k _ hpre
      have hnil : s = [] := List.eq_nil_of_length_eq_zero (Nat.le_zero.mp hs)
      subst hnil
      rwa [pyReplace_nil] at hpre
  | succ N ih =>
      intro s hs k hk hpre
      by_cases hkq : q.length ≤ k
      · rw [List.drop_eq_nil_of_le hkq]
        exact List.nil_prefix
      · push_neg at hkq
        cases s with
        | nil =>
            rwa [pyReplace_nil] at hpre
        | cons a rest =>
            rw [pyReplace_cons] at hpre
            by_cases hm : p.isPrefixOf (a :: rest) = true
            · rw [if_pos ⟨hp, hm⟩] at hpre
              exfalso
              obtain ⟨r0, R', hR'⟩ : ∃ r0 R', R = r0 :: R' := by
                cases R with
                | nil => exact absurd rfl hR
                | cons r0 R' => exact ⟨r0, R', rfl⟩
              rw [List.drop_eq_getElem_cons hkq, hR', List.cons_append] at hpre
              have hqa := (List.cons_prefix_cons.mp hpre).1
              exact hhead r0 (by rw [hR']; rfl) (hqa ▸ List.getElem_mem hkq)
            · rw [if_neg (by simp [hm])] at hpre
              rw [List.drop_eq_getElem_cons hkq] at hpre
              obtain ⟨hqa, hrest⟩ := List.cons_prefix_cons.mp hpre
              have h2 := ih rest (by simp only [List.length_cons] at hs; omega)
                (k + 1) (by omega) hrest
              rw [List.drop_eq_getElem_cons hkq, hqa]
              exact List.cons_prefix_cons.mpr ⟨rfl, h2⟩

theorem prefix_cons_split {l T : Str} {a : Char} (h : l <+: a :: T) (hl : l ≠ []) :
    l.head? = some a ∧ l.drop 1 <+: T := by
  cases l with
  | nil => exact absurd rfl hl
  | cons x xs =>
      obtain ⟨hxa, hxs⟩ := List.cons_prefix_cons.mp h
      exact ⟨by rw [hxa]; rfl, by simpa using hxs⟩

theorem prefix_cons_of_split {l T : Str} {a : Char} (hl : l.head? = some a)
    (hd : l.drop 1 <+: T) : l <+: a :: T := by
  cases l with
  | nil => cases hl
  | cons x xs =>
      have hxa : x = a := by
        simpa using hl
      exact List.cons_prefix_cons.mpr ⟨hxa, by simpa using hd⟩

theorem pyReplace_no_self (p R : Str) (hp : p ≠ []) (hR : R ≠ [])
    (hhead : ∀ x, R.head? = some x → x ∉ p)
    (hlast : ∀ x, R.getLast? = some x → x ∉ p)
    (hins : ¬ p <:+: R) :
    ∀ (N : Nat) (s : Str), s.length ≤ N → ¬ p <:+: pyReplace p R s := by
  intro N
  induction N with
  | zero =>
      intro s hs
      have hnil : s = [] := List.eq_nil_of_length_eq_zero (Nat.le_zero.mp hs)
      subst hnil
      rw [pyReplace_nil]
      simp [List.infix_nil, hp]
  | succ N ih =>
      intro s hs
      cases s with
      | nil =>
          rw [pyReplace_nil]
          simp [List.infix_nil, hp]
      | cons a rest =>
          rw [pyReplace_cons]
          by_cases hm : p.isPrefixOf (a :: rest) = true
          · rw [if_pos ⟨hp, hm⟩]
            intro hinf
            rcases occurrence_in_append p R _ hinf with hA | hB | ⟨x, hx, hxp⟩
            · exact hins hA
            · have hp1 : 1 ≤ p.length := by
                cases hpl : p with
                | nil => exact absurd hpl hp
                | cons u v => simp
              exact ih ((a :: rest).drop p.length)
                (by
                  simp only [List.length_drop, List.length_cons]
                  simp only [List.length_cons] at hs
                  omega) hB
            · exact hlast x hx hxp
          · rw [if_neg (by simp [hm])]
            intro hinf
            rcases List.infix_cons_iff.mp hinf with hpre | hinf'
            · obtain ⟨hhd, hdrop⟩ := prefix_cons_split hpre hp
              have htr := pyReplace_track p R p hp hR hhead N rest
                (by simp only [List.length_cons] at hs; omega) 1 le_rfl hdrop
              have hpref : p.isPrefixOf (a :: rest) = true := by
                rw [isPrefixOfSpec]
                exact prefix_cons_of_split hhd htr
              exact hm hpref
            · exact ih rest (by simp only [List.length_cons] at hs; omega) hinf'

theorem pyReplace_no_self_occurrence (p R s : Str) (hp : p ≠ []) (hR : R ≠ [])
    (hhead : ∀ x, R.head? = some x → x ∉ p)
    (hlast : ∀ x, R.getLast? = some x → x ∉ p)
    (hins : ¬ p <:+: R) : ¬ p <:+: pyReplace p R s :=
  pyReplace_no_self p R hp hR hhead hlast hins s.length s le_rfl

/-! ### The explicit-point connector on validated inputs -/

theorem nSideStep_some (np pep L : Str) : nSideStep (some np) pep L = pyReplace np pep L := by
  simp only [nSideStep]
  split
  · rfl
  · next h =>
      have hpe : pep = [] := by simpa using h
      rw [hpe]

theorem connect_ok (n c : Str) (li : LinkerInfo) (rn : PyVal)
    (hn : ∀ aa ∈ n, (amino_acid_sidechains aa).isSome)
    (hc : ∀ aa ∈ c, (amino_acid_sidechains aa).isSome) :
    connect_with_explicit_points n li c rn =
      .ok (cSideStep li.linker li.c_attachment (renderSpec c ConnectionType.c_terminal) rn
        (nSideStep li.n_attachment (renderSpec n ConnectionType.n_terminal) li.linker)) := by
  have h1 : (if n ≠ [] then build_peptide_chain_for_connection n ConnectionType.n_terminal
      else pure []) = Except.ok (renderSpec n ConnectionType.n_terminal) := by
    by_cases hne : n = []
    · simp only [hne, ne_eq, not_true_eq_false, if_false, renderSpec_nil]
      rfl
    · rw [if_pos hne]
      exact bp_spec n _ hn
  have h2 : (if c ≠ [] then build_peptide_chain_for_connection c ConnectionType.c_terminal
      else pure []) = Except.ok (renderSpec c ConnectionType.c_terminal) := by
    by_cases hce : c = []
    · simp only [hce, ne_eq, not_true_eq_false, if_false, renderSpec_nil]
      rfl
    · rw [if_pos hce]
      exact bp_spec c _ hc
  unfold connect_with_explicit_points
  rw [h1]
  rw [except_bind_ok]
  rw [h2]
  rw [except_bind_ok]
  rfl

/-! ### `rfind` finds the last occurrence -/

theorem rfindFrom_some_spec (p s : Str) :
    ∀ (n i : Nat), rfindFrom p s n = some i →
      p <+: s.drop i ∧ ∀ j, j ≤ n → p <+: s.drop j → j ≤ i := by
  intro n
  induction n with
  | zero =>
      intro i h
      unfold rfindFrom at h
      by_cases hm : p.isPrefixOf s = true
      · rw [if_pos hm] at h
        cases h
        refine ⟨by simpa using (isPrefixOfSpec _ _).mp hm, ?_⟩
        intro j hj _
        omega
      · rw [if_neg hm] at h
        cases h
  | succ n ih =>
      intro i h
      unfold rfindFrom at h
      by_cases hm : p.isPrefixOf (s.drop (n + 1)) = true
      · rw [if_pos hm] at h
        cases h
        refine ⟨(isPrefixOfSpec _ _).mp hm, ?_⟩
        intro j hj _
        omega
      · rw [if_neg hm] at h
        obtain ⟨h1, h2⟩ := ih i h
        refine ⟨h1, ?_⟩
        intro j hj hpj
        rcases Nat.lt_or_ge j (n + 1) with hlt | hge
        · exact h2 j (by omega) hpj
        · have hj1 : j = n + 1 := by omega
          subst hj1
          exact absurd ((isPrefixOfSpec _ _).mpr hpj) hm

theorem rfindFrom_none_spec (p s : Str) :
    ∀ (n : Nat), rfindFrom p s n = none → ∀ j, j ≤ n → ¬ p <+: s.drop j := by
  intro n
  induction n with
  | zero =>
      intro h j hj
      unfold rfindFrom at h
      by_cases hm : p.isPrefixOf s = true
      · rw [if_pos hm] at h
        cases h
      · rw [if_neg hm] at h
        have hj0 : j = 0 := by omega
        subst hj0
        intro hpj
        rw [List.drop_zero] at hpj
        exact hm ((isPrefixOfSpec _ _).mpr hpj)
  | succ n ih =>
      intro h j hj
      unfold rfindFrom at h
      by_cases hm : p.isPrefixOf (s.drop (n + 1)) = true
      · rw [if_pos hm] at h
        cases h
      · rw [if_neg hm] at h
        rcases Nat.lt_or_ge j (n + 1) with hlt | hge
        · exact ih h j (by omega)
        · have hj1 : j = n + 1 := by omega
          subst hj1
          intro hpj
          exact hm ((isPrefixOfSpec _ _).mpr hpj)

theorem rfind_some_spec (p s : Str) (i : Nat) (hp : p ≠ []) (h : rfind p s = some i) :
    p <+: s.drop i ∧ ∀ j, p <+: s.drop j → j ≤ i := by
  obtain ⟨h1, h2⟩ := rfindFrom_some_spec p s s.length i h
  refine ⟨h1, ?_⟩
  intro j hpj
  by_cases hj : j ≤ s.length
  · exact h2 j hj hpj
  · exfalso
    rw [List.drop_eq_nil_of_le (by omega)] at hpj
    obtain ⟨t, ht⟩ := hpj
    exact hp (List.append_eq_nil.mp ht).1

theorem rfind_none_spec (p s : Str) (hp : p ≠ []) (h : rfind p s = none) :
    ∀ j, ¬ p <+: s.drop j := by
  intro j
  by_cases hj : j ≤ s.length
  · exact rfindFrom_none_spec p s s.length h j hj
  · rw [List.drop_eq_nil_of_le (by omega)]
    intro hpj
    obtain ⟨t, ht⟩ := hpj
    exact hp (List.append_eq_nil.mp ht).1

theorem convert_of_rfind_some (s : Str) (i : Nat) (h : rfind acidPattern s = some i) :
    convert_last_carboxyl_to_amide s = s.take (i + 5) ++ 'N' :: s.drop (i + 6) := by
  unfold convert_last_carboxyl_to_amide
  rw [h]
  have hlen : acidPattern.length = 6 := rfl
  simp only [hlen]
  norm_num

theorem convert_of_rfind_none (s : Str) (h : rfind acidPattern s = none) :
    convert_last_carboxyl_to_amide s = s := by
  unfold convert_last_carboxyl_to_amide
  rw [h]

/-! ### Orchestrator-level plumbing -/

theorem parse_linker_field (L : Str) : (parse_linker_attachment_points L).linker = L := by
  rw [parse_fields]

theorem parse_has_explicit (L : Str) :
    (parse_linker_attachment_points L).has_explicit_points
      = (pyIn marker1 L || pyIn marker2 L) := by
  rw [parse_fields]

theorem parse_n_attachment (L : Str) :
    (parse_linker_attachment_points L).n_attachment
      = if pyIn marker1 L then some marker1 else none := by
  rw [parse_fields]

theorem parse_c_attachment (L : Str) :
    (parse_linker_attachment_points L).c_attachment
      = if pyIn marker2 L then some marker2 else none := by
  rw [parse_fields]

theorem filter_unknown_nil_iff (seq : Str) :
    seq.filter isUnknownAA = [] ↔ ∀ aa ∈ seq, (amino_acid_sidechains aa).isSome := by
  rw [List.filter_eq_nil_iff]
  constructor
  · intro h aa ha
    have h2 := h aa ha
    unfold isUnknownAA at h2
    rcases ho : amino_acid_sidechains aa with _ | s
    · exact absurd (by rw [ho]; rfl) h2
    · rfl
  · intro h aa ha
    have h2 := h aa ha
    unfold isUnknownAA
    intro hc
    rcases ho : amino_acid_sidechains aa with _ | s
    · rw [ho] at h2
      cases h2
    · rw [ho] at hc
      cases hc

theorem validateStep_ok (seq : Str) (k : Except PyExc Str)
    (hv : ∀ aa ∈ seq, (amino_acid_sidechains aa).isSome) : validateStep seq k = k := by
  unfold validateStep
  by_cases hs : seq = []
  · rw [if_pos hs]
  · rw [if_neg hs, (validate_ok_iff seq).mpr hv]

theorem validateStep_err (seq : Str) (k : Except PyExc Str)
    (hbad : seq.filter isUnknownAA ≠ []) :
    validateStep seq k = .error (.valueError (invalidMsg (seq.filter isUnknownAA))) := by
  have hs : seq ≠ [] := by
    rintro rfl
    simp at hbad
  unfold validateStep
  rw [if_neg hs, validate_err seq hbad]

theorem bdc_ok (n L c : Str)
    (hn : ∀ aa ∈ n, (amino_acid_sidechains aa).isSome)
    (hc : ∀ aa ∈ c, (amino_acid_sidechains aa).isSome) :
    build_direct_connection n L c
      = .ok (renderSpec n ConnectionType.n_terminal ++ L
          ++ renderSpec c ConnectionType.c_terminal) := by
  unfold build_direct_connection
  rw [bp_spec n _ hn, except_bind_ok, bp_spec c _ hc, except_bind_ok]
  rfl

theorem bdc_err_n (n L c : Str) (hbad : n.filter isUnknownAA ≠ []) :
    build_direct_connection n L c = .error (.keyError ((n.filter isUnknownAA).headI)) := by
  unfold build_direct_connection
  rw [bp_err n _ hbad, except_bind_error]

theorem bdc_err_c (n L c : Str) (hn : ∀ aa ∈ n, (amino_acid_sidechains aa).isSome)
    (hbad : c.filter isUnknownAA ≠ []) :
    build_direct_connection n L c = .error (.keyError ((c.filter isUnknownAA).headI)) := by
  unfold build_direct_connection
  rw [bp_spec n _ hn, except_bind_ok, bp_err c _ hbad, except_bind_error]

theorem bsi_of_error (n L c : Str) (e rn : PyVal) (m : Str) (ex : PyExc)
    (h : buildAttempt n L c rn m = .error ex) :
    build_structure_info n L c e rn m = .error (pyStr ex) := by
  unfold build_structure_info
  rw [h]

theorem bsi_of_ok (n L c : Str) (e rn : PyVal) (m : Str) (sm used : Str)
    (h : buildAttempt n L c rn m = .ok (sm, used)) :
    build_structure_info n L c e rn m =
      .info { n_terminal_sequence := n
              linker_smiles := L
              c_terminal_sequence := c
              total_structure_smiles :=
                if pyEqStr e "True".toList then convert_last_carboxyl_to_amide sm else sm
              method_used := used
              total_aa_length := n.length + c.length } := by
  unfold build_structure_info
  rw [h]

/-! ### Claim theorems -/

/-- Claim C6 (amended): `validate_sequence` returns ok exactly when every
character of the sequence (including the empty sequence) is a key of the
fragment table; otherwise it fails with a `ValueError` listing every
unrecognized character occurrence in input order — duplicates included, the
list is not deduplicated. -/
theorem claim_C6 (seq : Str) :
    (validate_sequence seq = .ok true ↔ ∀ aa ∈ seq, (amino_acid_sidechains aa).isSome) ∧
    (seq.filter isUnknownAA ≠ [] →
      validate_sequence seq = .error (.valueError (invalidMsg (seq.filter isUnknownAA)))) :=
  ⟨validate_ok_iff seq, validate_err seq⟩

/-- Witness for C6 at the concrete sequence `XAX`. -/
theorem claim_C6_witness :
    validate_sequence ['X', 'A', 'X']
      = .error (.valueError (invalidMsg (List.filter isUnknownAA ['X', 'A', 'X']))) :=
  (claim_C6 ['X', 'A', 'X']).2 (by decide)

/-- Counterexample to C6 as stated: on `XX` the error message lists `X`
twice, not the deduplicated single occurrence the claim describes. -/
theorem claim_C6_counterexample :
    validate_sequence ['X', 'X'] = .error (.valueError (invalidMsg ['X', 'X'])) ∧
    invalidMsg ['X', 'X'] ≠ invalidMsg ['X'] := ⟨rfl, by decide⟩

/-- Claim C7 (confirmed): for every sequence of known residue codes and either
terminus role, the renderer returns the ordered concatenation of per-residue
fragments (general template, glycine fixed template, or proline ring
literal), with a terminal `O` appended exactly for the last residue of a
non-empty C-side render, and the empty sequence rendering to the empty
string. -/
theorem claim_C7 (seq : Str) (ct : ConnectionType)
    (hv : ∀ aa ∈ seq, (amino_acid_sidechains aa).isSome) :
    build_peptide_chain_for_connection seq ct = .ok (renderSpec seq ct) :=
  bp_spec seq ct hv

/-- Witness for C7 at the concrete sequence `AGP`, C-side role. -/
theorem claim_C7_witness :
    build_peptide_chain_for_connection "AGP".toList ConnectionType.c_terminal
      = .ok (renderSpec "AGP".toList ConnectionType.c_terminal) ∧
    renderSpec "AGP".toList ConnectionType.c_terminal
      = "N[CH](C)C(=O)NCC(=O)N1CCC[CH]1C(=O)O".toList :=
  ⟨claim_C7 "AGP".toList ConnectionType.c_terminal (by decide), by decide⟩

/-- Claim C8 (confirmed): `convert_last_carboxyl_to_amide` locates the last
occurrence of the pattern `C(=O)O`; if found at index `i` (the greatest index
at which the pattern occurs), it replaces exactly the character at position
`i+5` — the occurrence's final `O` — by `N`, leaving every other position
unchanged; if the pattern does not occur, the input is returned unchanged. -/
theorem claim_C8 (s : Str) :
    (rfind acidPattern s = none →
      (∀ j, ¬ acidPattern <+: s.drop j) ∧ convert_last_carboxyl_to_amide s = s) ∧
    (∀ i, rfind acidPattern s = some i →
      acidPattern <+: s.drop i ∧ (∀ j, acidPattern <+: s.drop j → j ≤ i) ∧
      convert_last_carboxyl_to_amide s = s.take (i + 5) ++ 'N' :: s.drop (i + 6)) := by
  constructor
  · intro h
    exact ⟨rfind_none_spec acidPattern s (by decide) h, convert_of_rfind_none s h⟩
  · intro i h
    obtain ⟨h1, h2⟩ := rfind_some_spec acidPattern s i (by decide) h
    exact ⟨h1, h2, convert_of_rfind_some s i h⟩

/-- Witness for C8 on a string with two pattern occurrences: only the last
one is amidated. -/
theorem claim_C8_witness :
    rfind acidPattern "C(=O)OCC(=O)O".toList = some 7 ∧
    convert_last_carboxyl_to_amide "C(=O)OCC(=O)O".toList = "C(=O)OCC(=O)N".toList := by
  refine ⟨by decide, ?_⟩
  have h := ((claim_C8 "C(=O)OCC(=O)O".toList).2 7 (by decide)).2.2
  rw [h]
  decide

/-- Claim C9 (confirmed): the amidation flag and the duplicate-nitrogen flag
take effect only when the argument is the exact string `"True"`; any other
value — including the boolean `True` or other spellings — compares unequal
(Python `==` between a boolean and a string is `False`), leaving the
amidation transform unapplied and the leading-nitrogen stripping disabled,
with no error raised. -/
theorem claim_C9 (v : PyVal) (hv : v ≠ PyVal.str "True".toList) :
    pyEqStr v "True".toList = false ∧
    (∀ (n L c : Str) (rn : PyVal) (m : Str), build_structure_info n L c v rn m =
      match buildAttempt n L c rn m with
      | .error ex => .error (pyStr ex)
      | .ok (sm, used) =>
          .info { n_terminal_sequence := n
                  linker_smiles := L
                  c_terminal_sequence := c
                  total_structure_smiles := sm
                  method_used := used
                  total_aa_length := n.length + c.length }) ∧
    (∀ (L cur cpep : Str), cpep ≠ [] →
      cSideStep L (some marker2) cpep v cur = pyReplace marker2 cpep cur) := by
  have hfalse : pyEqStr v "True".toList = false := by
    cases v with
    | bool b => rfl
    | str s =>
        have hne : s ≠ "True".toList := fun hc => hv (by rw [hc])
        simp only [pyEqStr]
        exact beq_eq_false_iff_ne.mpr hne
  refine ⟨hfalse, ?_, ?_⟩
  · intro n L c rn m
    cases hba : buildAttempt n L c rn m with
    | error ex =>
        rw [bsi_of_error n L c v rn m ex hba]
    | ok pr =>
        obtain ⟨sm, used⟩ := pr
        rw [bsi_of_ok n L c v rn m sm used hba,
          if_neg (fun hc => Bool.false_ne_true (hfalse ▸ hc))]
  · intro L cur cpep hne
    simp only [cSideStep]
    rw [if_pos hne, if_neg (fun hc => Bool.false_ne_true (hfalse ▸ hc.1))]

/-- Witness for C9 with the boolean `True`: the flag comparison is false and
the assembled string keeps its free-acid ending (the acid suffix that
amidation would have rewritten is still present). -/
theorem claim_C9_witness :
    pyEqStr (PyVal.bool true) "True".toList = false ∧
    build_structure_info "A".toList "CC".toList "A".toList (PyVal.bool true)
        (PyVal.bool true) "auto".toList
      = .info { n_terminal_sequence := "A".toList
                linker_smiles := "CC".toList
                c_terminal_sequence := "A".toList
                total_structure_smiles := "N[CH](C)C(=O)CCN[CH](C)C(=O)O".toList
                method_used := "direct_connection_preserved".toList
                total_aa_length := 2 } := by
  have h := claim_C9 (PyVal.bool true) (by decide)
  refine ⟨h.1, ?_⟩
  rw [h.2.1 "A".toList "CC".toList "A".toList (PyVal.bool true) "auto".toList]
  decide

/-- Claim C10 (confirmed): every non-empty chain rendered from known residue
codes begins with `N` for either terminus role; consequently, whenever the
duplicate-nitrogen condition fires in the substitution engine for a
non-empty C-side chain, the startswith-`N` guard succeeds and the leading
nitrogen is always stripped. -/
theorem claim_C10 (seq : Str) (hs : seq ≠ [])
    (hv : ∀ aa ∈ seq, (amino_acid_sidechains aa).isSome) :
    (∀ ct, build_peptide_chain_for_connection seq ct = .ok (renderSpec seq ct) ∧
      (renderSpec seq ct).head? = some 'N') ∧
    (∀ (L cur : Str) (rn : PyVal),
      pyEqStr rn "True".toList = true → pyIn ('N' :: marker2) L = true →
      cSideStep L (some marker2) (renderSpec seq ConnectionType.c_terminal) rn cur
        = pyReplace marker2 (renderSpec seq ConnectionType.c_terminal).tail cur) := by
  constructor
  · intro ct
    exact ⟨bp_spec seq ct hv, renderSpec_head seq ct hs⟩
  · intro L cur rn hrn hNin
    simp only [cSideStep]
    rw [if_pos (renderSpec_ne_nil seq _ hs), if_pos ⟨hrn, hNin⟩,
      if_pos (renderSpec_head seq _ hs)]

/-- Witness for C10 at the concrete sequence `K` with linker `N[*2]`. -/
theorem claim_C10_witness :
    (renderSpec "K".toList ConnectionType.c_terminal).head? = some 'N' ∧
    cSideStep "N[*2]".toList (some marker2) (renderSpec "K".toList ConnectionType.c_terminal)
        (PyVal.str "True".toList) "N[*2]".toList
      = pyReplace marker2 (renderSpec "K".toList ConnectionType.c_terminal).tail
          "N[*2]".toList := by
  have h := claim_C10 "K".toList (by decide) (by decide)
  exact ⟨by decide,
    h.2 "N[*2]".toList "N[*2]".toList (PyVal.str "True".toList) rfl (by decide)⟩

/-- Claim C1 (amended): under `strategy = auto` the Substitution Engine
(`connect_with_explicit_points`) is invoked exactly when the linker contains
`[*1]` or `[*2]`; the strategy label, however, follows the coarser `[*`
prefilter — it is `explicit_attachment_preserved` whenever the linker
contains the substring `[*`, so a linker containing `[*` without either full
marker is labelled explicit although direct concatenation produced the
result (and in that case the terminal sequences are still validated). -/
theorem claim_C1 (n L c : Str) (rn : PyVal) :
    buildAttempt n L c rn "auto".toList =
      if (pyIn marker1 L || pyIn marker2 L) = true then
        (validateStep n (validateStep c
          (connect_with_explicit_points n (parse_linker_attachment_points L) c rn))).map
          (fun s => (s, "explicit_attachment_preserved".toList))
      else if pyIn "[*".toList L = true then
        (validateStep n (validateStep c (build_direct_connection n L c))).map
          (fun s => (s, "explicit_attachment_preserved".toList))
      else
        (build_direct_connection n L c).map
          (fun s => (s, "direct_connection_preserved".toList)) := by
  rw [buildAttempt_auto, bwpl_eq, parse_has_explicit]
  by_cases hm : (pyIn marker1 L || pyIn marker2 L) = true
  · have hbrak : pyIn "[*".toList L = true := by
      rcases Bool.or_eq_true_iff.mp hm with h1 | h1
      · exact pyIn_brak_of_marker1 L h1
      · exact pyIn_brak_of_marker2 L h1
    have hbrak' : pyIn ['[', '*'] L = true := hbrak
    simp [hm, hbrak']
  · by_cases hbrak : pyIn "[*".toList L = true
    · have hbrak' : pyIn ['[', '*'] L = true := hbrak
      simp [hm, hbrak']
    · have hbrak' : ¬ pyIn ['[', '*'] L = true := hbrak
      simp [hm, hbrak']

/-- Counterexample to C1 as stated: with linker `C[*3]C` (which contains `[*`
but neither marker) the direct-concatenation path produces the result, yet
the record's label is `explicit_attachment_preserved`, so the label does not
reflect the path taken. -/
theorem claim_C1_counterexample :
    build_structure_info "A".toList "C[*3]C".toList "G".toList
        (PyVal.str "False".toList) (PyVal.str "False".toList) "auto".toList
      = .info { n_terminal_sequence := "A".toList
                linker_smiles := "C[*3]C".toList
                c_terminal_sequence := "G".toList
                total_structure_smiles := "N[CH](C)C(=O)C[*3]CNCC(=O)O".toList
                method_used := "explicit_attachment_preserved".toList
                total_aa_length := 2 } ∧
    build_direct_connection "A".toList "C[*3]C".toList "G".toList
      = .ok "N[CH](C)C(=O)C[*3]CNCC(=O)O".toList ∧
    "explicit_attachment_preserved".toList ≠ "direct_connection_preserved".toList :=
  ⟨rfl, rfl, by decide⟩

/-- Claim C2 (amended): when a terminal sequence contains an unknown residue,
`build_structure_info` (auto mode) returns a failure record — but its
description depends on the path: on the preserved path (linker contains
`[*`) validation precedes connection and the description is the Validator's
`InvalidResidue` message; on the direct path no validation runs and the
description is the `KeyError` rendering of the first unknown character
reached while rendering the N-chain and then the C-chain. -/
theorem claim_C2 (n L c : Str) (e rn : PyVal)
    (h : n.filter isUnknownAA ≠ [] ∨ c.filter isUnknownAA ≠ []) :
    build_structure_info n L c e rn "auto".toList =
      if pyIn "[*".toList L = true then
        .error (invalidMsg (if n.filter isUnknownAA ≠ [] then n.filter isUnknownAA
          else c.filter isUnknownAA))
      else
        .error (pyStr (.keyError (((n ++ c).filter isUnknownAA).headI))) := by
  by_cases hbrak : pyIn "[*".toList L = true
  · rw [if_pos hbrak]
    by_cases hn : n.filter isUnknownAA ≠ []
    · have ha : buildAttempt n L c rn "auto".toList
          = .error (.valueError (invalidMsg (n.filter isUnknownAA))) := by
        rw [buildAttempt_auto, if_pos hbrak, bwpl_eq, validateStep_err n _ hn,
          except_map_error]
      rw [bsi_of_error n L c e rn _ _ ha, if_pos hn]
      rfl
    · have hc' : c.filter isUnknownAA ≠ [] := by tauto
      have hnall := (filter_unknown_nil_iff n).mp (not_not.mp hn)
      have ha : buildAttempt n L c rn "auto".toList
          = .error (.valueError (invalidMsg (c.filter isUnknownAA))) := by
        rw [buildAttempt_auto, if_pos hbrak, bwpl_eq, validateStep_ok n _ hnall,
          validateStep_err c _ hc', except_map_error]
      rw [bsi_of_error n L c e rn _ _ ha, if_neg hn]
      rfl
  · rw [if_neg hbrak]
    by_cases hn : n.filter isUnknownAA ≠ []
    · have ha : buildAttempt n L c rn "auto".toList
          = .error (.keyError ((n.filter isUnknownAA).headI)) := by
        rw [buildAttempt_auto, if_neg hbrak, bdc_err_n n L c hn, except_map_error]
      rw [bsi_of_error n L c e rn _ _ ha]
      cases hfn : n.filter isUnknownAA with
      | nil => exact absurd hfn hn
      | cons x xs =>
          simp [List.filter_append, hfn]
    · have hc' : c.filter isUnknownAA ≠ [] := by tauto
      have hnall := (filter_unknown_nil_iff n).mp (not_not.mp hn)
      have ha : buildAttempt n L c rn "auto".toList
          = .error (.keyError ((c.filter isUnknownAA).headI)) := by
        rw [buildAttempt_auto, if_neg hbrak, bdc_err_c n L c hnall hc', except_map_error]
      rw [bsi_of_error n L c e rn _ _ ha]
      simp [List.filter_append, not_not.mp hn]

/-- Witness for C2 on the preserved path: unknown residue `X` is reported
with the Validator's message. -/
theorem claim_C2_witness :
    build_structure_info ['X'] "[*1]C".toList [] (PyVal.str "False".toList)
        (PyVal.str "False".toList) "auto".toList
      = .error (invalidMsg ['X']) := by
  have h := claim_C2 ['X'] "[*1]C".toList [] (PyVal.str "False".toList)
    (PyVal.str "False".toList) (Or.inl (by decide))
  rw [h]
  decide

/-- Counterexample to C2 as stated: on the direct path (no `[*` in the
linker) the failure description is the `KeyError` rendering `'X'`, not the
Validator's `InvalidResidue` message — validation never ran. -/
theorem claim_C2_counterexample :
    build_structure_info ['X'] "CCO".toList [] (PyVal.str "False".toList)
        (PyVal.str "False".toList) "auto".toList
      = .error (squote :: 'X' :: [squote]) ∧
    squote :: 'X' :: [squote] ≠ invalidMsg ['X'] := ⟨rfl, by decide⟩

/-- Claim C3 (amended): when `[*1]` occurs in the linker and the N-side
sequence is non-empty and valid, the N-side handling step replaces every
occurrence of `[*1]` (left-to-right, non-overlapping — not only the first)
by the rendered chain, and no `[*1]` token remains after that step; the
unconditional no-residual guarantee of the claim fails, however, when the
N-side sequence is empty, because deleting the token can re-form a new one
from the surrounding text. -/
theorem claim_C3 (n L : Str) (hn : n ≠ [])
    (hv : ∀ aa ∈ n, (amino_acid_sidechains aa).isSome) (h1 : pyIn marker1 L = true) :
    build_peptide_chain_for_connection n ConnectionType.n_terminal
        = .ok (renderSpec n ConnectionType.n_terminal) ∧
    nSideStep (parse_linker_attachment_points L).n_attachment
        (renderSpec n ConnectionType.n_terminal) L
      = pyReplace marker1 (renderSpec n ConnectionType.n_terminal) L ∧
    ¬ marker1 <:+: pyReplace marker1 (renderSpec n ConnectionType.n_terminal) L := by
  refine ⟨bp_spec n _ hv, ?_, ?_⟩
  · rw [parse_n_attachment, if_pos h1, nSideStep_some]
  · apply pyReplace_no_self_occurrence
    · decide
    · exact renderSpec_ne_nil n _ hn
    · intro x hx
      rw [renderSpec_head n _ hn] at hx
      cases hx
      decide
    · intro x hx
      rcases renderSpec_last n ConnectionType.n_terminal hn with hl | hl <;>
        rw [hl] at hx <;> cases hx <;> decide
    · intro hinf
      exact renderSpec_no_star n ConnectionType.n_terminal (hinf.subset (by decide))

/-- Witness for C3 at sequence `A` and linker `[*1]C[*1]`. -/
theorem claim_C3_witness :
    nSideStep (parse_linker_attachment_points "[*1]C[*1]".toList).n_attachment
        (renderSpec "A".toList ConnectionType.n_terminal) "[*1]C[*1]".toList
      = pyReplace marker1 (renderSpec "A".toList ConnectionType.n_terminal)
          "[*1]C[*1]".toList ∧
    ¬ marker1 <:+: pyReplace marker1 (renderSpec "A".toList ConnectionType.n_terminal)
        "[*1]C[*1]".toList := by
  have h := claim_C3 "A".toList "[*1]C[*1]".toList (by decide) (by decide) (by decide)
  exact ⟨h.2.1, h.2.2⟩

/-- Counterexample to C3 as stated: (a) with an empty N-side sequence and
linker `[*[*1]1]`, removing the marker re-forms a `[*1]` token in the
returned string, refuting the no-residual guarantee; (b) with sequence `G`
and linker `[*1]C[*1]` both occurrences are replaced, refuting
"exactly its first occurrence". -/
theorem claim_C3_counterexample :
    connect_with_explicit_points [] (parse_linker_attachment_points "[*[*1]1]".toList) []
        (PyVal.str "True".toList) = .ok "[*1]".toList ∧
    pyIn marker1 "[*1]".toList = true ∧
    connect_with_explicit_points "G".toList
        (parse_linker_attachment_points "[*1]C[*1]".toList) [] (PyVal.str "True".toList)
      = .ok "NCC(=O)CNCC(=O)".toList ∧
    "NCC(=O)CNCC(=O)".toList ≠ "NCC(=O)C[*1]".toList :=
  ⟨rfl, rfl, rfl, by decide⟩

/-- Claim C4 (confirmed): with `[*2]` present in the linker and validated
sequences, the C-side handling substitutes the rendered C-chain with its
leading `N` stripped exactly when the duplicate-removal flag equals the
string `"True"` and the linker contains `N` immediately before `[*2]`;
otherwise a non-empty chain is substituted unmodified, and an empty C-side
sequence deletes the marker. -/
theorem claim_C4 (n c L : Str) (rn : PyVal)
    (hn : ∀ aa ∈ n, (amino_acid_sidechains aa).isSome)
    (hc : ∀ aa ∈ c, (amino_acid_sidechains aa).isSome)
    (h2 : pyIn marker2 L = true) :
    connect_with_explicit_points n (parse_linker_attachment_points L) c rn = .ok
      (if c = [] then
        pyReplace marker2 []
          (nSideStep (parse_linker_attachment_points L).n_attachment
            (renderSpec n ConnectionType.n_terminal) L)
      else if pyEqStr rn "True".toList = true ∧ pyIn ('N' :: marker2) L = true then
        pyReplace marker2 (renderSpec c ConnectionType.c_terminal).tail
          (nSideStep (parse_linker_attachment_points L).n_attachment
            (renderSpec n ConnectionType.n_terminal) L)
      else
        pyReplace marker2 (renderSpec c ConnectionType.c_terminal)
          (nSideStep (parse_linker_attachment_points L).n_attachment
            (renderSpec n ConnectionType.n_terminal) L)) := by
  rw [connect_ok n c _ rn hn hc]
  congr 1
  rw [parse_c_attachment, if_pos h2, parse_linker_field]
  simp only [cSideStep]
  by_cases hcc : c = []
  · subst hcc
    rw [renderSpec_nil]
    simp
  · rw [if_neg hcc, if_pos (renderSpec_ne_nil c ConnectionType.c_terminal hcc)]
    by_cases hcond : pyEqStr rn "True".toList = true ∧ pyIn ('N' :: marker2) L = true
    · rw [if_pos hcond, if_pos hcond,
        if_pos (renderSpec_head c ConnectionType.c_terminal hcc)]
    · rw [if_neg hcond, if_neg hcond]

/-- Witness for C4: linker `CN[*2]C` supplies the junction nitrogen, the flag
is the string `"True"`, so lysine's C-chain is substituted with its leading
`N` stripped. -/
theorem claim_C4_witness :
    connect_with_explicit_points "A".toList (parse_linker_attachment_points "CN[*2]C".toList)
        "K".toList (PyVal.str "True".toList) = .ok "CN[CH](CCCCN)C(=O)OC".toList := by
  have h := claim_C4 "A".toList "K".toList "CN[*2]C".toList (PyVal.str "True".toList)
    (by decide) (by decide) (by decide)
  rw [h]
  decide

/-- Claim C5 (amended): the forced mode `method = "preserved"` bypasses only
the outer `[*` prefilter of `build_structure_info`; inside,
`build_with_preserved_linker` re-runs marker auto-detection, selecting the
Substitution Engine exactly when a marker is present and otherwise falling
back to direct concatenation — so a marker-free linker yields the direct
concatenation of the chains around the linker, not the engine's output, under
the label `preserved_linker_structure` either way. -/
theorem claim_C5 (n L c : Str) (rn : PyVal) :
    buildAttempt n L c rn "preserved".toList =
      (validateStep n (validateStep c
        (if (pyIn marker1 L || pyIn marker2 L) = true then
          connect_with_explicit_points n (parse_linker_attachment_points L) c rn
        else
          build_direct_connection n L c))).map
        (fun s => (s, "preserved_linker_structure".toList)) := by
  rw [buildAttempt_preserved, bwpl_eq, parse_has_explicit]

/-- Counterexample to C5 as stated: with `method = "preserved"` and the
marker-free linker `CCO`, the code returns the direct concatenation
`N[CH](C)C(=O)CCO`, not the Substitution Engine's output `CCO` for these
inputs. -/
theorem claim_C5_counterexample :
    build_structure_info "A".toList "CCO".toList [] (PyVal.str "False".toList)
        (PyVal.str "False".toList) "preserved".toList
      = .info { n_terminal_sequence := "A".toList
                linker_smiles := "CCO".toList
                c_terminal_sequence := []
                total_structure_smiles := "N[CH](C)C(=O)CCO".toList
                method_used := "preserved_linker_structure".toList
                total_aa_length := 1 } ∧
    connect_with_explicit_points "A".toList (parse_linker_attachment_points "CCO".toList) []
        (PyVal.str "False".toList) = .ok "CCO".toList ∧
    "N[CH](C)C(=O)CCO".toList ≠ "CCO".toList :=
  ⟨rfl, rfl, by decide⟩
